import Mathlib

/-!
Verification development for the smart-money-radar data pipeline
(`api/services/stock_service.py`).

Shallow embedding conventions:
* A pandas DataFrame of net-purchase records is a `List Row`; the empty
  DataFrame is `[]`.
* Calendar dates (`YYYYMMDD` strings manipulated through `pd.to_datetime` /
  `timedelta(days=1)` in the source) are modelled as integers counting days;
  stepping back one calendar day is subtraction of 1.
* The external world (pykrx remote calls, the local CSV files, exceptions)
  is an explicit `Env`; a remote call that raises is `Except.error ()`.
* The SQL cache (`StockData` table) is a `List CacheRecord` threaded through
  the functions that read or write it.
* Monetary amounts are `Int`; percent changes are `ℚ` (the float rounding
  `round(x, 2)` is modelled by `round2`).
-/

namespace SmartMoney

/-- One net-purchase record: ticker (티커), display name (종목명) and signed
net buy amount (순매수거래대금). -/
structure Row where
  ticker : String
  name : String
  net_buy_amount : Int
deriving DecidableEq, Repr

/-- A net-purchase DataFrame. -/
abbrev Table := List Row

/-- One row of the SQL cache table `stock_data` (`api/models.py`), keyed by
(date, investor, ticker). -/
structure CacheRecord where
  date : Int
  investor : String
  ticker : String
  name : String
  net_buy_amount : Int
deriving DecidableEq, Repr

/-- One row of a market OHLCV table restricted to the two columns the code
uses: 종가 (close) and 등락률 (daily percent change). -/
structure PriceRow where
  ticker : String
  close_price : Int
  fluct : ℚ
deriving DecidableEq, Repr

/-- The external world: the four pykrx capabilities the service consumes and
the local CSV files.  `Except.error ()` models a raised exception; for
`files`, `none` models `os.path.exists` returning false and
`some (.error ())` a file that exists but whose read raises (or that lacks
the 티커 column, which the code treats the same way: the file contributes
nothing). -/
structure Env where
  net_purchases : Int → Int → String → Except Unit Table
  files : String → Option (Except Unit Table)
  market_ohlcv : Int → Except Unit (List PriceRow)
  index_ohlcv : Int → Int → Except Unit (List Int)

/-- `round(x, 2)` on a percent value. -/
def round2 (q : ℚ) : ℚ := (round (q * 100) : ℤ) / 100

/-- The filter `StockData.date == date, StockData.investor == investor_type`
used by the cache query in `get_investor_data`. -/
def matchesKey (date : Int) (investor_type : String) (r : CacheRecord) : Bool :=
  r.date == date && r.investor == investor_type

/-- Rebuilding a DataFrame row from a cached record (columns 티커, 종목명,
순매수거래대금). -/
def cacheRow (r : CacheRecord) : Row :=
  { ticker := r.ticker, name := r.name, net_buy_amount := r.net_buy_amount }

/-- The `StockData(...)` constructor call used when persisting a freshly
fetched row. -/
def toCacheRecord (date : Int) (investor_type : String) (r : Row) : CacheRecord :=
  { date := date, investor := investor_type, ticker := r.ticker,
    name := r.name, net_buy_amount := r.net_buy_amount }

/-- The `investor_code_map` dictionary of `get_investor_data`. -/
def investor_code_map (investor_type : String) : Option String :=
  if investor_type = "외국인" then some "foreigner"
  else if investor_type = "개인" then some "individual"
  else if investor_type = "기관합계" then some "institution"
  else none

/-- `str.zfill(6)` on a ticker code. -/
def zfill6 (s : String) : String :=
  String.mk (List.replicate (6 - s.length) '0') ++ s

/-- Reading one fallback CSV: missing file or failed read contributes an
empty table; a successful read zero-pads the 티커 column. -/
def load_csv (env : Env) (fname : String) : Table :=
  match env.files fname with
  | none => []
  | some (Except.error _) => []
  | some (Except.ok rows) => rows.map (fun r => { r with ticker := zfill6 r.ticker })

/-- `combined_df[~combined_df.index.duplicated(keep='first')]`: keep the
first occurrence of each ticker. -/
def dedupRows : Table → Table
  | [] => []
  | r :: rs => r :: (dedupRows rs).filter (fun x => !(x.ticker == r.ticker))

/-- Tier 3 of `get_investor_data`: assemble the table from the two local CSV
files named from the investor code and the date. -/
def csv_fallback (env : Env) (date : Int) (investor_type : String) : Table :=
  match investor_code_map investor_type with
  | none => []
  | some inv_code =>
    let buy_file := inv_code ++ "_net_buy_top100_" ++ toString date ++ ".csv"
    let sell_file := inv_code ++ "_net_sell_top100_" ++ toString date ++ ".csv"
    dedupRows (load_csv env buy_file ++ load_csv env sell_file)

/-- Result of one `get_investor_data` call: the returned table, the cache
state after the call, and two observability flags recording whether the
remote provider was invoked and whether the tier-3 CSV fallback was
reached. -/
structure FetchOut where
  table : Table
  cache : List CacheRecord
  remoteInvoked : Bool
  csvConsulted : Bool
deriving DecidableEq, Repr

/-- `get_investor_data(date, investor_type)`: cache, then remote (persisting
a non-empty remote result), then local CSV fallback.  Every failure is
swallowed; the function is total. -/
def get_investor_data (env : Env) (cache : List CacheRecord) (date : Int)
    (investor_type : String) : FetchOut :=
  let cached := cache.filter (matchesKey date investor_type)
  if cached.isEmpty then
    match env.net_purchases date date investor_type with
    | Except.ok df =>
      if df.isEmpty then
        { table := csv_fallback env date investor_type, cache := cache,
          remoteInvoked := true, csvConsulted := true }
      else
        { table := df, cache := cache ++ df.map (toCacheRecord date investor_type),
          remoteInvoked := true, csvConsulted := false }
    | Except.error _ =>
      { table := csv_fallback env date investor_type, cache := cache,
        remoteInvoked := true, csvConsulted := true }
  else
    { table := cached.map cacheRow, cache := cache,
      remoteInvoked := false, csvConsulted := false }

/-- `get_market_price(date)`: OHLCV fetch with every exception (and the
empty result) collapsed to an empty table. -/
def get_market_price (env : Env) (date : Int) : List PriceRow :=
  match env.market_ohlcv date with
  | Except.ok df => df
  | Except.error _ => []

/-- The `for _ in range(7)` loop of `get_nearest_market_price`. -/
def nearest_price_aux (env : Env) : Nat → Int → List PriceRow
  | 0, _ => []
  | n + 1, d =>
    if (get_market_price env d).isEmpty then nearest_price_aux env n (d - 1)
    else get_market_price env d

/-- `get_nearest_market_price(date_str)`: up to 7 attempts stepping back one
calendar day at a time. -/
def get_nearest_market_price (env : Env) (date : Int) : List PriceRow :=
  nearest_price_aux env 7 date

/-- The `get_price_info` helper closed over a price table: close price and
rounded daily change, defaulting to `(0, 0.0)`. -/
def get_price_info (price_df : List PriceRow) (ticker : String) : Int × ℚ :=
  match price_df.find? (fun p => p.ticker == ticker) with
  | some p => (p.close_price, round2 p.fluct)
  | none => (0, 0)

/-- One enriched entry of a ranked list. -/
structure RankedEntry where
  ticker : String
  name : String
  net_buy_amount : Int
  close_price : Int
  percent_change : ℚ
  rank : Nat
deriving DecidableEq, Repr

/-- Building one list entry from a DataFrame row (`rank` filled in later). -/
def mk_entry (price_df : List PriceRow) (r : Row) : RankedEntry :=
  let pc := get_price_info price_df r.ticker
  { ticker := r.ticker, name := r.name, net_buy_amount := r.net_buy_amount,
    close_price := pc.1, percent_change := pc.2, rank := 0 }

/-- Sequential 1-based rank assignment (`rank = len(data) + 1` in the build
loops, `item['rank'] = i + 1` after the trend sort). -/
def assign_ranks : Nat → List RankedEntry → List RankedEntry
  | _, [] => []
  | i, e :: es => { e with rank := i } :: assign_ranks (i + 1) es

/-- `sort_values(ascending=False)` order on DataFrame rows. -/
def amountDesc (a b : Row) : Prop := b.net_buy_amount ≤ a.net_buy_amount

/-- `sort_values(ascending=True)` order on DataFrame rows. -/
def amountAsc (a b : Row) : Prop := a.net_buy_amount ≤ b.net_buy_amount

instance : DecidableRel amountDesc := fun a b => by
  unfold amountDesc; infer_instance

instance : DecidableRel amountAsc := fun a b => by
  unfold amountAsc; infer_instance

instance : IsTotal Row amountDesc :=
  ⟨fun a b => le_total b.net_buy_amount a.net_buy_amount⟩

instance : IsTrans Row amountDesc :=
  ⟨fun _ _ _ hab hbc => le_trans hbc hab⟩

instance : IsTotal Row amountAsc :=
  ⟨fun a b => le_total a.net_buy_amount b.net_buy_amount⟩

instance : IsTrans Row amountAsc :=
  ⟨fun _ _ _ hab hbc => le_trans hab hbc⟩

/-- One side of `get_top_net_buy_sell`: sort the DataFrame, truncate to
`top_n`, enrich with prices and assign 1-based ranks. -/
def top_list (rel : Row → Row → Prop) [DecidableRel rel] (df : Table)
    (price_df : List PriceRow) (top_n : Nat) : List RankedEntry :=
  assign_ranks 1 (((df.insertionSort rel).take top_n).map (mk_entry price_df))

/-- The dictionary returned by `get_top_net_buy_sell` on success. -/
structure TopResult where
  buy : List RankedEntry
  sell : List RankedEntry
  date : Int
deriving DecidableEq, Repr

/-- Observable outcome of a `get_top_net_buy_sell` run: the returned value
(`none` models Python `None`), the final cache state, the list of dates
attempted by the day-stepping loop (in order), and whether any attempt
reached the CSV fallback tier. -/
structure TopOut where
  result : Option TopResult
  cache : List CacheRecord
  attempted : List Int
  csvConsulted : Bool
deriving DecidableEq, Repr

/-- The `for _ in range(MAX_DAYS_BACK + 1)` loop of `get_top_net_buy_sell`,
with the remaining iteration count as fuel. -/
def get_top_aux (env : Env) (investor_type : String) (top_n : Nat) :
    Nat → Int → List CacheRecord → TopOut
  | 0, _, cache =>
    { result := none, cache := cache, attempted := [], csvConsulted := false }
  | fuel + 1, d, cache =>
    let out := get_investor_data env cache d investor_type
    if out.table.isEmpty then
      let rest := get_top_aux env investor_type top_n fuel (d - 1) out.cache
      { result := rest.result, cache := rest.cache,
        attempted := d :: rest.attempted,
        csvConsulted := out.csvConsulted || rest.csvConsulted }
    else
      let price_df := get_market_price env d
      { result := some
          { buy := top_list amountDesc out.table price_df top_n,
            sell := top_list amountAsc out.table price_df top_n,
            date := d },
        cache := out.cache, attempted := [d], csvConsulted := out.csvConsulted }

/-- `get_top_net_buy_sell(date, investor_type, top_n, allow_fallback)`:
tries the requested date and, when `allow_fallback`, up to 10 further
calendar days stepping backward. -/
def get_top_net_buy_sell (env : Env) (cache : List CacheRecord) (date : Int)
    (investor_type : String) (top_n : Nat) (allow_fallback : Bool) : TopOut :=
  let MAX_DAYS_BACK := if allow_fallback then 10 else 0
  get_top_aux env investor_type top_n (MAX_DAYS_BACK + 1) date cache

/-- `sort_values(ascending=False)` order on the trading dates returned by
the index query. -/
def dateDesc (a b : Int) : Prop := b ≤ a

instance : DecidableRel dateDesc := fun a b => by
  unfold dateDesc; infer_instance

instance : IsTotal Int dateDesc := ⟨fun a b => le_total b a⟩

instance : IsTrans Int dateDesc := ⟨fun _ _ _ hab hbc => le_trans hbc hab⟩

/-- `get_start_date_n_trading_days_ago(days)`: query the KOSPI index over a
`days * 3 + 20` calendar-day window and pick the `days`-th most recent
trading date, with the documented degraded fallbacks.  `business_days[days-1]`
with `days = 0` is Python's index `-1`, i.e. the last (oldest) element, hence
the explicit `days = 0` branch; the `getLastD` defaults are unreachable
because the lists involved are non-empty in those branches. -/
def get_start_date_n_trading_days_ago (env : Env) (now : Int) (days : Nat) : Int :=
  let lookback : Int := (days : Int) * 3 + 20
  match env.index_ohlcv (now - lookback) now with
  | Except.error _ => now - days
  | Except.ok dates =>
    if dates.isEmpty then now - days
    else
      let business_days := dates.insertionSort dateDesc
      if business_days.length < days then business_days.getLastD 0
      else if days = 0 then business_days.getLastD 0
      else (business_days.take days).getLastD 0

/-- `get_daily_raw_data(date, investor_type)`: a direct pykrx fetch whose
bare `except:` collapses every failure to an empty table. -/
def get_daily_raw_data (env : Env) (date : Int) (investor_type : String) : Table :=
  match env.net_purchases date date investor_type with
  | Except.ok df => df
  | Except.error _ => []

/-- The `dates_to_check` list of `analyze_special_trends`: `days * 2 + 5`
consecutive calendar dates ending today, descending. -/
def candidate_dates (now : Int) (days : Nat) : List Int :=
  (List.range (days * 2 + 5)).map (fun i : Nat => now - (i : Int))

/-- The sorted `raw_results` of `analyze_special_trends`: each candidate
date's table is fetched (concurrently in the source) and empty results are
discarded; sorting the collected pairs by date descending yields exactly the
filtered descending candidate list, which is how it is modelled here. -/
def surviving (env : Env) (now : Int) (days : Nat) (investor_type : String) :
    List (Int × Table) :=
  (candidate_dates now days).filterMap (fun d =>
    let df := get_daily_raw_data env d investor_type
    if df.isEmpty then none else some (d, df))

/-- `raw_results` after the `raw_results[:days]` truncation. -/
def kept_datasets (env : Env) (now : Int) (days : Nat) (investor_type : String) :
    List (Int × Table) :=
  if days < (surviving env now days investor_type).length then
    (surviving env now days investor_type).take days
  else surviving env now days investor_type

/-- `x :: (x removed from the rest)`: keep the first occurrence of each
string; used to model a Python set of tickers as a duplicate-free list. -/
def dedupStr : List String → List String
  | [] => []
  | x :: xs => x :: (dedupStr xs).filter (fun y => !(y == x))

/-- `set(df[df['순매수거래대금'] > 0].index)`: the tickers with positive net
buy amount on one day. -/
def posTickers (df : Table) : List String :=
  dedupStr ((df.filter (fun r => decide (0 < r.net_buy_amount))).map Row.ticker)

/-- The consecutive-buy set: today's positive-buy tickers intersected, in
turn, with each other surviving day's positive-buy tickers. -/
def consecutive_buyers (today_df : Table) (rest : List Table) : List String :=
  rest.foldl (fun acc df => acc.filter (fun t => decide (t ∈ posTickers df)))
    (posTickers today_df)

/-- The new-inflow set: today's positive-buy tickers minus each other
surviving day's positive-buy tickers. -/
def new_inflow_set (today_df : Table) (rest : List Table) : List String :=
  rest.foldl (fun acc df => acc.filter (fun t => decide (t ∉ posTickers df)))
    (posTickers today_df)

/-- The `start_price` assignment of `build_result_list`: close price from
the table nearest the oldest surviving date, `0` when absent. -/
def start_price_of (start_price_df : List PriceRow) (ticker : String) : Int :=
  match start_price_df.find? (fun p => p.ticker == ticker) with
  | some p => p.close_price
  | none => 0

/-- The `period_change` recomputation `(end - start) / start * 100`. -/
def period_change (end_price start_price : Int) : ℚ :=
  ((end_price : ℚ) - (start_price : ℚ)) / (start_price : ℚ) * 100

/-- The per-ticker body of `build_result_list`: look the ticker up in
today's table, pull the end price and daily change from the price table
nearest the most recent day, the start price from the table nearest the
oldest day, and recompute the percent change over the whole period when both
prices are positive. -/
def trend_entry (today_df : Table) (price_df start_price_df : List PriceRow)
    (ticker : String) : Option RankedEntry :=
  match today_df.find? (fun r => r.ticker == ticker) with
  | none => none
  | some row =>
    let endInfo := get_price_info price_df ticker
    let start_price := start_price_of start_price_df ticker
    let final_chg : ℚ :=
      if decide (0 < start_price) && decide (0 < endInfo.1) then
        round2 (period_change endInfo.1 start_price)
      else endInfo.2
    some { ticker := ticker, name := row.name, net_buy_amount := row.net_buy_amount,
           close_price := endInfo.1, percent_change := final_chg, rank := 0 }

/-- `sort(key=net_buy_amount, reverse=True)` order on entries. -/
def entryDesc (a b : RankedEntry) : Prop := b.net_buy_amount ≤ a.net_buy_amount

instance : DecidableRel entryDesc := fun a b => by
  unfold entryDesc; infer_instance

instance : IsTotal RankedEntry entryDesc :=
  ⟨fun a b => le_total b.net_buy_amount a.net_buy_amount⟩

instance : IsTrans RankedEntry entryDesc :=
  ⟨fun _ _ _ hab hbc => le_trans hbc hab⟩

/-- `build_result_list(tickers)`: build the entries, sort by amount
descending, assign 1-based ranks, truncate to `top_n`. -/
def build_result_list (today_df : Table) (price_df start_price_df : List PriceRow)
    (top_n : Nat) (tickers : List String) : List RankedEntry :=
  let res := tickers.filterMap (trend_entry today_df price_df start_price_df)
  (assign_ranks 1 (res.insertionSort entryDesc)).take top_n

/-- The dictionary returned by `analyze_special_trends` on success. -/
structure TrendResult where
  consecutive : List RankedEntry
  new_inflow : List RankedEntry
  days_analyzed : Nat
  start_date : Int
  end_date : Int
deriving DecidableEq, Repr

/-- `analyze_special_trends(days, investor_type, top_n)`.  The `[] => none`
branch of the inner match is reachable only for `days = 0`, where the source
itself crashes on `raw_results[0]` after truncating to an empty list; every
theorem below assumes `1 ≤ days`. -/
def analyze_special_trends (env : Env) (now : Int) (days : Nat)
    (investor_type : String) (top_n : Nat) : Option TrendResult :=
  let raw := surviving env now days investor_type
  if raw.isEmpty then none
  else
    match kept_datasets env now days investor_type with
    | [] => none
    | (today_date, today_df) :: rest =>
      let oldest := rest.getLastD (today_date, today_df)
      let price_df := get_nearest_market_price env today_date
      let start_price_df := get_nearest_market_price env oldest.1
      let tables := rest.map Prod.snd
      some { consecutive := build_result_list today_df price_df start_price_df top_n
               (consecutive_buyers today_df tables),
             new_inflow := build_result_list today_df price_df start_price_df top_n
               (new_inflow_set today_df tables),
             days_analyzed := rest.length + 1,
             start_date := oldest.1,
             end_date := today_date }

/-- `get_aggregated_investor_data(start_date, end_date, investor_type)`:
range-aggregated remote fetch, errors and the empty result collapsed to an
empty table. -/
def get_aggregated_investor_data (env : Env) (start_date end_date : Int)
    (investor_type : String) : Table :=
  match env.net_purchases start_date end_date investor_type with
  | Except.ok df => df
  | Except.error _ => []

/-- The dictionary returned by `get_aggregated_top_stocks` on success. -/
structure TopRangeResult where
  buy : List RankedEntry
  sell : List RankedEntry
  start_date : Int
  end_date : Int
deriving DecidableEq, Repr

/-- `get_aggregated_top_stocks(start_date, end_date, investor_type, top_n)`:
rank the aggregated table, enriching with prices nearest to `end_date`. -/
def get_aggregated_top_stocks (env : Env) (start_date end_date : Int)
    (investor_type : String) (top_n : Nat) : Option TopRangeResult :=
  let df := get_aggregated_investor_data env start_date end_date investor_type
  if df.isEmpty then none
  else
    let price_df := get_nearest_market_price env end_date
    some { buy := top_list amountDesc df price_df top_n,
           sell := top_list amountAsc df price_df top_n,
           start_date := start_date, end_date := end_date }

/-! ### Specification-side predicates and formulas -/

/-- The amounts of a ranked list, in list order. -/
def amounts (l : List RankedEntry) : List Int := l.map RankedEntry.net_buy_amount

/-- Rank values are exactly `1..len` in list order. -/
def ranksSequential (l : List RankedEntry) : Prop :=
  l.map RankedEntry.rank = List.range' 1 l.length

/-- Amounts never increase along the list (buy-list order). -/
def amountsNonincreasing (l : List RankedEntry) : Prop :=
  (amounts l).Pairwise (fun a b => b ≤ a)

/-- Amounts never decrease along the list (sell-list order). -/
def amountsNondecreasing (l : List RankedEntry) : Prop :=
  (amounts l).Pairwise (fun a b => a ≤ b)

/-- The single-day percent change taken from a price table, `0.0` when the
ticker is absent (specification wording for the C9 fallback). -/
def single_day_change (price_df : List PriceRow) (t : String) : ℚ :=
  match price_df.find? (fun p => p.ticker == t) with
  | some p => round2 p.fluct
  | none => 0

/-- The percent change the specification prescribes for a trend entry: when
both a valid (positive) end price from the table nearest the most recent day
and a valid start price from the table nearest the oldest day exist, the
whole-period change `(end - start) / start * 100` rounded to 2 decimals;
otherwise the single-day change from the most recent day's table (or `0.0`
when that too is unavailable). -/
def spec_percent_change (price_df start_price_df : List PriceRow) (t : String) : ℚ :=
  match price_df.find? (fun p => p.ticker == t),
        start_price_df.find? (fun p => p.ticker == t) with
  | some p, some q =>
    if 0 < p.close_price ∧ 0 < q.close_price then
      round2 (period_change p.close_price q.close_price)
    else single_day_change price_df t
  | _, _ => single_day_change price_df t

/-! ### Concrete environments used to instantiate the theorems -/

/-- A world in which every remote call raises and no local file exists. -/
def envAllFail : Env :=
  { net_purchases := fun _ _ _ => Except.error (),
    files := fun _ => none,
    market_ohlcv := fun _ => Except.error (),
    index_ohlcv := fun _ _ => Except.error () }

/-- Contents of one concrete fallback CSV (note the un-padded ticker). -/
def csvRowsW : Table := [{ ticker := "5930", name := "삼성전자", net_buy_amount := 1000 }]

/-- Remote always raises, but the foreign-investor buy-side CSV for
2024-01-05 exists. -/
def envCsv : Env :=
  { envAllFail with files := fun f =>
      if f = "foreigner_net_buy_top100_20240105.csv" then some (Except.ok csvRowsW)
      else none }

/-- The one-row remote table used by `envRemoteOne`. -/
def remoteRowsW : Table := [{ ticker := "A", name := "N", net_buy_amount := 5 }]

/-- Remote succeeds with a one-row table on every date. -/
def envRemoteOne : Env :=
  { envAllFail with net_purchases := fun _ _ _ => Except.ok remoteRowsW }

/-- A cache already holding one record for 2024-01-05 / foreign investors. -/
def cacheOne : List CacheRecord :=
  [{ date := 20240105, investor := "외국인", ticker := "005930",
     name := "삼성전자", net_buy_amount := 77 }]

/-! ### Cache-backed fetcher: tier characterization -/

/-- Tier 1: a cache hit returns the cached rows and touches nothing else. -/
theorem gid_of_cache_hit (env : Env) (cache : List CacheRecord) (date : Int)
    (investor_type : String) (h : cache.filter (matchesKey date investor_type) ≠ []) :
    get_investor_data env cache date investor_type =
      { table := (cache.filter (matchesKey date investor_type)).map cacheRow,
        cache := cache, remoteInvoked := false, csvConsulted := false } := by
  unfold get_investor_data
  cases hc : cache.filter (matchesKey date investor_type) with
  | nil => exact absurd hc h
  | cons a t => simp [hc]

/-- Tier 2: on a cache miss, a non-empty remote result is returned and
bulk-persisted. -/
theorem gid_of_remote_hit (env : Env) (cache : List CacheRecord) (date : Int)
    (investor_type : String) (df : Table)
    (h1 : cache.filter (matchesKey date investor_type) = [])
    (h2 : env.net_purchases date date investor_type = Except.ok df)
    (h3 : df ≠ []) :
    get_investor_data env cache date investor_type =
      { table := df, cache := cache ++ df.map (toCacheRecord date investor_type),
        remoteInvoked := true, csvConsulted := false } := by
  unfold get_investor_data
  cases df with
  | nil => exact absurd rfl h3
  | cons a t => simp [h1, h2]

/-- Tier 3: on a cache miss with a failed or empty remote fetch, the CSV
fallback is consulted and the cache is left untouched. -/
theorem gid_of_fallback (env : Env) (cache : List CacheRecord) (date : Int)
    (investor_type : String)
    (h1 : cache.filter (matchesKey date investor_type) = [])
    (h2 : env.net_purchases date date investor_type = Except.error () ∨
          env.net_purchases date date investor_type = Except.ok []) :
    get_investor_data env cache date investor_type =
      { table := csv_fallback env date investor_type, cache := cache,
        remoteInvoked := true, csvConsulted := true } := by
  unfold get_investor_data
  rcases h2 with h2 | h2 <;> simp [h1, h2]

/-- With no local files at all, the CSV fallback assembles an empty table. -/
theorem csv_fallback_no_files (env : Env) (date : Int) (investor_type : String)
    (hfiles : ∀ f, env.files f = none) :
    csv_fallback env date investor_type = [] := by
  unfold csv_fallback load_csv
  cases investor_code_map investor_type <;> simp [hfiles, dedupRows]

/-- C1: for every date and investor class, when the cache has no matching
records, the remote fetch fails or returns empty, and no local fallback CSV
files exist, `get_investor_data` returns an empty table.  (In the embedding
the function is total, so no exception can propagate; every failure of a
tier is already folded into its result.) -/
theorem fetcher_all_tiers_miss_returns_empty (env : Env) (cache : List CacheRecord)
    (date : Int) (investor_type : String)
    (h1 : cache.filter (matchesKey date investor_type) = [])
    (h2 : env.net_purchases date date investor_type = Except.error () ∨
          env.net_purchases date date investor_type = Except.ok [])
    (h3 : ∀ f, env.files f = none) :
    (get_investor_data env cache date investor_type).table = [] := by
  rw [gid_of_fallback env cache date investor_type h1 h2]
  exact csv_fallback_no_files env date investor_type h3

theorem fetcher_all_tiers_miss_returns_empty_witness :
    (get_investor_data envAllFail [] 20240105 "외국인").table = [] :=
  fetcher_all_tiers_miss_returns_empty envAllFail [] 20240105 "외국인" rfl
    (Or.inl rfl) (fun _ => rfl)

/-- Every record persisted by tier 2 matches the (date, investor) filter. -/
theorem filter_matchesKey_toCacheRecord (date : Int) (investor_type : String) (df : Table) :
    (df.map (toCacheRecord date investor_type)).filter (matchesKey date investor_type)
      = df.map (toCacheRecord date investor_type) := by
  rw [List.filter_eq_self]
  intro a ha
  rcases List.mem_map.mp ha with ⟨r, _, rfl⟩
  simp [matchesKey, toCacheRecord]

/-- Persisting a row and reading it back reproduces the row. -/
theorem cacheRow_toCacheRecord (date : Int) (investor_type : String) (r : Row) :
    cacheRow (toCacheRecord date investor_type r) = r := rfl

/-- C5 counterexample: with an empty cache, a failing remote source and no
local files, the first call leaves the cache empty, so the second call
invokes the Remote Data Source again — refuting "the second call does not
invoke the Remote Data Source" as a statement about *every* date and
investor class. -/
theorem fetcher_second_call_cex :
    (get_investor_data envAllFail
        (get_investor_data envAllFail [] 20240105 "외국인").cache
        20240105 "외국인").remoteInvoked = true := rfl

/-- C5 (amended): two sequential calls always return identical record
tables, and whenever the first call leaves the cache with records matching
(date, investor class) — i.e. it was served from the cache or from a
successful non-empty remote fetch — the second call does not invoke the
Remote Data Source. -/
theorem fetcher_second_call_amended (env : Env) (cache : List CacheRecord)
    (date : Int) (investor_type : String) :
    (get_investor_data env (get_investor_data env cache date investor_type).cache
        date investor_type).table
      = (get_investor_data env cache date investor_type).table ∧
    ((get_investor_data env cache date investor_type).cache.filter
        (matchesKey date investor_type) ≠ [] →
      (get_investor_data env (get_investor_data env cache date investor_type).cache
          date investor_type).remoteInvoked = false) := by
  by_cases hc : cache.filter (matchesKey date investor_type) = []
  · cases hr : env.net_purchases date date investor_type with
    | error e =>
      cases e
      simp only [gid_of_fallback env cache date investor_type hc (Or.inl hr)]
      exact ⟨trivial, fun h => absurd hc h⟩
    | ok df =>
      cases df with
      | nil =>
        simp only [gid_of_fallback env cache date investor_type hc (Or.inr hr)]
        exact ⟨trivial, fun h => absurd hc h⟩
      | cons a t =>
        simp only [gid_of_remote_hit env cache date investor_type (a :: t) hc hr
          (List.cons_ne_nil a t)]
        have hfilter : (cache ++ (a :: t).map (toCacheRecord date investor_type)).filter
            (matchesKey date investor_type)
            = (a :: t).map (toCacheRecord date investor_type) := by
          rw [List.filter_append, hc,
            filter_matchesKey_toCacheRecord date investor_type (a :: t), List.nil_append]
        have hne : (cache ++ (a :: t).map (toCacheRecord date investor_type)).filter
            (matchesKey date investor_type) ≠ [] := by
          rw [hfilter]; simp
        rw [gid_of_cache_hit env _ date investor_type hne]
        refine ⟨?_, fun _ => rfl⟩
        rw [hfilter, List.map_map]
        simp only [Function.comp]
        exact List.map_id'' (fun _ => rfl) (a :: t)
  · simp only [gid_of_cache_hit env cache date investor_type hc]
    exact ⟨trivial, fun _ => trivial⟩

theorem fetcher_second_call_amended_witness :
    (get_investor_data envRemoteOne
        (get_investor_data envRemoteOne [] 0 "외국인").cache 0 "외국인").remoteInvoked
      = false :=
  (fetcher_second_call_amended envRemoteOne [] 0 "외국인").2 (by decide)

/-- C2 counterexample: with `allow_fallback = false`, an empty cache and a
raising remote source, `get_top_net_buy_sell` still consults the local CSV
fallback tier for the requested date — and indeed serves its result from the
CSV file — refuting "the local CSV-file fallback tier is never used". -/
theorem top_no_fallback_uses_csv_cex :
    (get_top_net_buy_sell envCsv [] 20240105 "외국인" 100 false).csvConsulted = true ∧
    (get_top_net_buy_sell envCsv [] 20240105 "외국인" 100 false).result.isSome = true :=
  ⟨rfl, rfl⟩

/-- A single loop iteration attempts exactly its own date. -/
theorem get_top_aux_one_attempt (env : Env) (investor_type : String) (top_n : Nat)
    (d : Int) (cache : List CacheRecord) :
    (get_top_aux env investor_type top_n 1 d cache).attempted = [d] := by
  unfold get_top_aux
  by_cases h : (get_investor_data env cache d investor_type).table.isEmpty
  · simp [h, get_top_aux]
  · simp [h]

/-- C2 (amended): with `allow_fallback = false` no stepping backward to
earlier dates is attempted — exactly the requested date is tried — but each
attempt still runs the full three-tier fetch, including the local CSV-file
fallback (see the counterexample above). -/
theorem top_no_fallback_single_attempt (env : Env) (cache : List CacheRecord)
    (date : Int) (investor_type : String) (top_n : Nat) :
    (get_top_net_buy_sell env cache date investor_type top_n false).attempted = [date] :=
  get_top_aux_one_attempt env investor_type top_n date cache

/-! ### Price enrichment: nearest-price lookback -/

/-- The lookback loop with `n` attempts returns the first non-empty table
among dates `d, d-1, …, d-(n-1)`, or empty. -/
theorem nearest_price_aux_spec (env : Env) :
    ∀ (n : Nat) (d : Int),
      nearest_price_aux env n d =
        (((List.range n).map (fun k : Nat => get_market_price env (d - k))).find?
          (fun t => !t.isEmpty)).getD [] := by
  intro n
  induction n with
  | zero => intro d; simp [nearest_price_aux]
  | succ n ih =>
    intro d
    have hlist : (List.range (n + 1)).map (fun k : Nat => get_market_price env (d - k))
        = get_market_price env d
            :: (List.range n).map (fun k : Nat => get_market_price env (d - 1 - k)) := by
      rw [List.range_succ_eq_map, List.map_cons, List.map_map]
      refine congrArg₂ List.cons (by simp) ?_
      apply List.map_congr_left
      intro k _
      have hk : d - ((k : Int) + 1) = d - 1 - k := by ring
      simp [Function.comp, hk]
    rw [hlist, List.find?_cons]
    by_cases h : (get_market_price env d).isEmpty
    · have hstep : nearest_price_aux env (n + 1) d = nearest_price_aux env n (d - 1) := by
        simp only [nearest_price_aux]
        rw [if_pos h]
      have hd : (!(get_market_price env d).isEmpty) = false := by simp [h]
      rw [hstep, ih (d - 1), hd]
    · have hstep : nearest_price_aux env (n + 1) d = get_market_price env d := by
        simp only [nearest_price_aux]
        rw [if_neg h]
      have hd : (!(get_market_price env d).isEmpty) = true := by simp [h]
      rw [hstep, hd]
      simp

/-- C8: `get_nearest_market_price` makes at most 7 attempts — the given date
and then one calendar day backward at a time — and returns the first
non-empty price table found, or an empty table if all 7 attempts are
empty. -/
theorem nearest_price_seven_attempts (env : Env) (d : Int) :
    get_nearest_market_price env d =
      (((List.range 7).map (fun k : Nat => get_market_price env (d - k))).find?
        (fun t => !t.isEmpty)).getD [] :=
  nearest_price_aux_spec env 7 d

/-! ### Trading-day resolver -/

/-- In a list sorted by `dateDesc` the last element is a lower bound. -/
theorem pairwise_dateDesc_getLast_le :
    ∀ (l : List Int), l.Pairwise dateDesc →
      ∀ (hne : l ≠ []) (x : Int), x ∈ l → l.getLast hne ≤ x := by
  intro l
  induction l with
  | nil => intro _ hne; exact absurd rfl hne
  | cons a t ih =>
    intro hp hne x hx
    rcases List.mem_cons.mp hx with rfl | hx
    · cases t with
      | nil => simp [List.getLast]
      | cons b u =>
        rw [List.getLast_cons (List.cons_ne_nil b u)]
        exact (List.pairwise_cons.mp hp).1 _
          (List.getLast_mem (List.cons_ne_nil b u))
    · cases t with
      | nil => cases hx
      | cons b u =>
        rw [List.getLast_cons (List.cons_ne_nil b u)]
        exact ih (List.pairwise_cons.mp hp).2 (List.cons_ne_nil b u) x hx

/-- `getLastD` on a non-empty list is `getLast`. -/
theorem getLastD_of_ne_nil :
    ∀ (l : List Int) (hne : l ≠ []) (d : Int), l.getLastD d = l.getLast hne := by
  intro l
  induction l with
  | nil => intro hne; exact absurd rfl hne
  | cons a t ih =>
    intro _ d
    cases t with
    | nil => rfl
    | cons b u =>
      rw [List.getLastD_cons, ih (List.cons_ne_nil b u) a,
        List.getLast_cons (List.cons_ne_nil b u)]

/-- `l[:n]`'s last element is `l[n-1]` for `1 ≤ n ≤ len(l)`. -/
theorem take_getLastD :
    ∀ (l : List Int) (n : Nat) (d : Int), n ≤ l.length → 1 ≤ n →
      ∀ (h : n - 1 < l.length), (l.take n).getLastD d = l.get ⟨n - 1, h⟩ := by
  intro l
  induction l with
  | nil =>
    intro n d h1 h2 h
    rw [List.length_nil] at h1
    exact absurd h2 (by omega)
  | cons a t ih =>
    intro n d h1 h2 h
    match n, h2 with
    | 1, _ => simp
    | (m + 2), _ =>
      have hm : m + 1 ≤ t.length := by simpa using h1
      have hm' : m + 1 - 1 < t.length := by omega
      have := ih (m + 1) a hm (by omega) hm'
      simp only [List.take_succ_cons, List.getLastD_cons]
      rw [this]
      rfl

/-- In a strictly descending list, exactly `i` elements are greater than the
element at index `i`. -/
theorem countP_gt_get_of_strict_desc :
    ∀ (l : List Int), l.Pairwise (fun a b => b < a) →
      ∀ (i : Nat) (hi : i < l.length),
        l.countP (fun x => decide (l.get ⟨i, hi⟩ < x)) = i := by
  intro l
  induction l with
  | nil => intro _ i hi; cases hi
  | cons a t ih =>
    intro hp i hi
    match i with
    | 0 =>
      have hget : (a :: t).get ⟨0, hi⟩ = a := rfl
      rw [hget, List.countP_cons]
      have h1 : List.countP (fun x => decide (a < x)) t = 0 := by
        rw [List.countP_eq_zero]
        intro x hx
        have := (List.pairwise_cons.mp hp).1 x hx
        simp only [decide_eq_true_eq]
        omega
      simp [h1]
    | (j + 1) =>
      have hj : j < t.length := by simpa using hi
      have hget : (a :: t).get ⟨j + 1, hi⟩ = t.get ⟨j, hj⟩ := rfl
      rw [hget, List.countP_cons]
      have hmem : t.get ⟨j, hj⟩ ∈ t := List.get_mem t _ _
      have hlt : t.get ⟨j, hj⟩ < a := (List.pairwise_cons.mp hp).1 _ hmem
      have h1 := ih (List.pairwise_cons.mp hp).2 j hj
      rw [h1]
      have hlt2 : t[j] < a := hlt
      simp [hlt2]

/-- C7: for every `n ≥ 1`, the trading-day resolver queries the index over
the `n * 3 + 20` calendar-day window ending now; on a raised or empty query it
returns the date `n` calendar days before now; when fewer than `n` trading
dates come back it returns the oldest returned date; otherwise it returns
the `n`-th most recent returned trading date (the returned date belongs to
the query result and exactly `n - 1` returned dates are more recent). -/
theorem resolver_window_and_cases (env : Env) (now : Int) (n : Nat) (hn : 1 ≤ n) :
    (env.index_ohlcv (now - ((n : Int) * 3 + 20)) now = Except.error () →
       get_start_date_n_trading_days_ago env now n = now - n) ∧
    (env.index_ohlcv (now - ((n : Int) * 3 + 20)) now = Except.ok [] →
       get_start_date_n_trading_days_ago env now n = now - n) ∧
    (∀ ds, env.index_ohlcv (now - ((n : Int) * 3 + 20)) now = Except.ok ds →
       ds ≠ [] → ds.length < n →
         get_start_date_n_trading_days_ago env now n ∈ ds ∧
         ∀ x ∈ ds, get_start_date_n_trading_days_ago env now n ≤ x) ∧
    (∀ ds, env.index_ohlcv (now - ((n : Int) * 3 + 20)) now = Except.ok ds →
       ds.Nodup → n ≤ ds.length →
         get_start_date_n_trading_days_ago env now n ∈ ds ∧
         ds.countP
           (fun x => decide (get_start_date_n_trading_days_ago env now n < x))
           = n - 1) := by
  refine ⟨?_, ?_, ?_, ?_⟩
  · intro h
    simp [get_start_date_n_trading_days_ago, h]
  · intro h
    simp [get_start_date_n_trading_days_ago, h]
  · intro ds h hne hlen
    have hperm := List.perm_insertionSort dateDesc ds
    have hsorted : (ds.insertionSort dateDesc).Pairwise dateDesc :=
      List.sorted_insertionSort dateDesc ds
    have hne' : ds.insertionSort dateDesc ≠ [] := by
      intro hcon
      have hl := hperm.length_eq
      rw [hcon] at hl
      simp only [List.length_nil] at hl
      exact hne (List.length_eq_zero.mp hl.symm)
    have hlen' : (ds.insertionSort dateDesc).length < n := by
      rw [hperm.length_eq]; exact hlen
    have hne2 : ds.isEmpty = false := by
      cases ds with
      | nil => exact absurd rfl hne
      | cons a t => rfl
    have hres : get_start_date_n_trading_days_ago env now n
        = (ds.insertionSort dateDesc).getLast hne' := by
      rw [← getLastD_of_ne_nil _ hne' 0]
      simp only [get_start_date_n_trading_days_ago, h, hne2]
      rw [if_neg (by simp), if_pos hlen']
    rw [hres]
    constructor
    · exact hperm.mem_iff.mp (List.getLast_mem hne')
    · intro x hx
      exact pairwise_dateDesc_getLast_le _ hsorted hne' x (hperm.mem_iff.mpr hx)
  · intro ds h hnd hlen
    have hperm := List.perm_insertionSort dateDesc ds
    have hsorted : (ds.insertionSort dateDesc).Pairwise dateDesc :=
      List.sorted_insertionSort dateDesc ds
    have hlen' : n ≤ (ds.insertionSort dateDesc).length := by
      rw [hperm.length_eq]; exact hlen
    have hidx : n - 1 < (ds.insertionSort dateDesc).length := by omega
    have hne2 : ds.isEmpty = false := by
      cases ds with
      | nil => exact absurd hlen (by simp; omega)
      | cons a t => rfl
    have hres : get_start_date_n_trading_days_ago env now n
        = (ds.insertionSort dateDesc).get ⟨n - 1, hidx⟩ := by
      have hnotlt : ¬ (ds.insertionSort dateDesc).length < n := by omega
      have hn0 : ¬ n = 0 := by omega
      simp only [get_start_date_n_trading_days_ago, h, hne2]
      rw [if_neg (by simp), if_neg hnotlt, if_neg hn0]
      exact take_getLastD _ n 0 hlen' hn hidx
    have hstrict : (ds.insertionSort dateDesc).Pairwise (fun a b => b < a) := by
      have hnd' : (ds.insertionSort dateDesc).Nodup := hperm.symm.nodup hnd
      exact (hsorted.and hnd').imp
        (fun hab => lt_of_le_of_ne hab.1 (Ne.symm hab.2))
    rw [hres]
    constructor
    · exact hperm.mem_iff.mp (List.get_mem _ _ _)
    · rw [← hperm.countP_eq]
      exact countP_gt_get_of_strict_desc _ hstrict (n - 1) hidx

theorem resolver_window_and_cases_witness :
    get_start_date_n_trading_days_ago envAllFail 0 2 = -2 :=
  (resolver_window_and_cases envAllFail 0 2 (by decide)).1 rfl

/-! ### Trend analyzer: set semantics -/

/-- Membership in a deduplicated string list is membership in the list. -/
theorem mem_dedupStr : ∀ (l : List String) (x : String), x ∈ dedupStr l ↔ x ∈ l := by
  intro l
  induction l with
  | nil => intro x; simp [dedupStr]
  | cons a t ih =>
    intro x
    by_cases hxa : x = a
    · subst hxa
      simp [dedupStr]
    · simp [dedupStr, List.mem_filter, hxa, ih]

/-- A ticker is in a day's positive-buy set iff some row of that day's table
carries it with positive net buy amount. -/
theorem mem_posTickers (df : Table) (x : String) :
    x ∈ posTickers df ↔ ∃ r ∈ df, r.ticker = x ∧ 0 < r.net_buy_amount := by
  unfold posTickers
  rw [mem_dedupStr]
  simp only [List.mem_map, List.mem_filter, decide_eq_true_eq]
  constructor
  · rintro ⟨r, ⟨hr, hpos⟩, rfl⟩
    exact ⟨r, hr, rfl, hpos⟩
  · rintro ⟨r, hr, rfl, hpos⟩
    exact ⟨r, ⟨hr, hpos⟩, rfl⟩

/-- Unfolding the intersection fold of the consecutive-buy computation. -/
theorem mem_foldl_inter :
    ∀ (rest : List Table) (acc : List String) (x : String),
      x ∈ rest.foldl
          (fun acc df => acc.filter (fun t => decide (t ∈ posTickers df))) acc ↔
        x ∈ acc ∧ ∀ df ∈ rest, x ∈ posTickers df := by
  intro rest
  induction rest with
  | nil => intro acc x; simp
  | cons df rest ih =>
    intro acc x
    simp only [List.foldl_cons]
    rw [ih]
    simp only [List.mem_filter, decide_eq_true_eq, List.forall_mem_cons]
    tauto

/-- Unfolding the difference fold of the new-inflow computation. -/
theorem mem_foldl_diff :
    ∀ (rest : List Table) (acc : List String) (x : String),
      x ∈ rest.foldl
          (fun acc df => acc.filter (fun t => decide (t ∉ posTickers df))) acc ↔
        x ∈ acc ∧ ∀ df ∈ rest, x ∉ posTickers df := by
  intro rest
  induction rest with
  | nil => intro acc x; simp
  | cons df rest ih =>
    intro acc x
    simp only [List.foldl_cons]
    rw [ih]
    simp only [List.mem_filter, decide_eq_true_eq, List.forall_mem_cons]
    tauto

/-- The consecutive set is the set of tickers bought (net) on every
surviving day. -/
theorem mem_consecutive_buyers_iff (today_df : Table) (rest : List Table) (x : String) :
    x ∈ consecutive_buyers today_df rest ↔
      ∀ df ∈ today_df :: rest, ∃ r ∈ df, r.ticker = x ∧ 0 < r.net_buy_amount := by
  unfold consecutive_buyers
  rw [mem_foldl_inter]
  simp only [List.forall_mem_cons, mem_posTickers]

/-- The new-inflow set is the set of tickers bought (net) on the most recent
day and on no other surviving day. -/
theorem mem_new_inflow_iff (today_df : Table) (rest : List Table) (x : String) :
    x ∈ new_inflow_set today_df rest ↔
      (∃ r ∈ today_df, r.ticker = x ∧ 0 < r.net_buy_amount) ∧
        ∀ df ∈ rest, ¬ ∃ r ∈ df, r.ticker = x ∧ 0 < r.net_buy_amount := by
  unfold new_inflow_set
  rw [mem_foldl_diff]
  simp only [mem_posTickers]

/-- C3: over any non-empty family of surviving daily tables (most recent
first), the consecutive set contains exactly the tickers that have positive
net buy amount on every surviving day, and the new-inflow set contains
exactly the tickers with positive net buy amount on the most recent day and
on no other surviving day. -/
theorem trend_sets_characterization (today_df : Table) (rest : List Table) (x : String) :
    (x ∈ consecutive_buyers today_df rest ↔
      ∀ df ∈ today_df :: rest, ∃ r ∈ df, r.ticker = x ∧ 0 < r.net_buy_amount) ∧
    (x ∈ new_inflow_set today_df rest ↔
      (∃ r ∈ today_df, r.ticker = x ∧ 0 < r.net_buy_amount) ∧
        ∀ df ∈ rest, ¬ ∃ r ∈ df, r.ticker = x ∧ 0 < r.net_buy_amount) :=
  ⟨mem_consecutive_buyers_iff today_df rest x, mem_new_inflow_iff today_df rest x⟩

/-- C10: with at least two surviving daily tables the consecutive set and
the new-inflow set are disjoint; with exactly one surviving table both sets
coincide with that day's positive-net-buy ticker set. -/
theorem trend_sets_disjoint_or_coincide (today_df : Table) (rest : List Table) :
    (rest ≠ [] → ∀ x, ¬ (x ∈ consecutive_buyers today_df rest ∧
        x ∈ new_inflow_set today_df rest)) ∧
    (consecutive_buyers today_df [] = posTickers today_df ∧
      new_inflow_set today_df [] = posTickers today_df) := by
  refine ⟨?_, rfl, rfl⟩
  intro hne x ⟨hc, hn⟩
  rcases List.exists_cons_of_ne_nil hne with ⟨df, rest', rfl⟩
  have hc' := (mem_consecutive_buyers_iff today_df (df :: rest') x).mp hc
  have hn' := (mem_new_inflow_iff today_df (df :: rest') x).mp hn
  exact hn'.2 df (List.mem_cons_self df rest') (hc' df (by simp))

theorem trend_sets_disjoint_or_coincide_witness :
    ¬ ("A" ∈ consecutive_buyers [{ ticker := "A", name := "N", net_buy_amount := 5 }]
          [[{ ticker := "B", name := "M", net_buy_amount := 3 }]] ∧
       "A" ∈ new_inflow_set [{ ticker := "A", name := "N", net_buy_amount := 5 }]
          [[{ ticker := "B", name := "M", net_buy_amount := 3 }]]) :=
  (trend_sets_disjoint_or_coincide _ _).1 (by simp) "A"

/-! ### Ranking invariants -/

/-- Ranks assigned starting at `i` are `i, i+1, …` in list order. -/
theorem assign_ranks_map_rank :
    ∀ (l : List RankedEntry) (i : Nat),
      (assign_ranks i l).map RankedEntry.rank = List.range' i l.length := by
  intro l
  induction l with
  | nil => intro i; rfl
  | cons e es ih =>
    intro i
    simp only [assign_ranks, List.map_cons, List.length_cons, List.range'_succ]
    rw [ih (i + 1)]

/-- Rank assignment preserves length. -/
theorem assign_ranks_length :
    ∀ (l : List RankedEntry) (i : Nat), (assign_ranks i l).length = l.length := by
  intro l
  induction l with
  | nil => intro i; rfl
  | cons e es ih =>
    intro i
    simp only [assign_ranks, List.length_cons]
    rw [ih (i + 1)]

/-- Rank assignment does not touch the amounts. -/
theorem assign_ranks_map_amount :
    ∀ (l : List RankedEntry) (i : Nat),
      (assign_ranks i l).map RankedEntry.net_buy_amount
        = l.map RankedEntry.net_buy_amount := by
  intro l
  induction l with
  | nil => intro i; rfl
  | cons e es ih =>
    intro i
    simp only [assign_ranks, List.map_cons]
    rw [ih (i + 1)]

/-- Truncating `range'` truncates its length. -/
theorem range'_take :
    ∀ (m n s : Nat), (List.range' s m).take n = List.range' s (min n m) := by
  intro m
  induction m with
  | zero => intro n s; simp
  | succ m ih =>
    intro n s
    cases n with
    | zero => simp
    | succ n =>
      rw [List.range'_succ, List.take_succ_cons, ih n (s + 1),
        Nat.succ_min_succ, List.range'_succ]

/-- A rank-assigned list has sequential ranks. -/
theorem ranksSequential_assign (l : List RankedEntry) :
    ranksSequential (assign_ranks 1 l) := by
  unfold ranksSequential
  rw [assign_ranks_map_rank, assign_ranks_length]

/-- A rank-assigned list keeps sequential ranks after truncation. -/
theorem ranksSequential_assign_take (l : List RankedEntry) (n : Nat) :
    ranksSequential ((assign_ranks 1 l).take n) := by
  unfold ranksSequential
  rw [List.map_take, assign_ranks_map_rank, range'_take, List.length_take,
    assign_ranks_length]

/-- Every `top_list` carries ranks `1..len`. -/
theorem top_list_ranks (rel : Row → Row → Prop) [DecidableRel rel] (df : Table)
    (price_df : List PriceRow) (top_n : Nat) :
    ranksSequential (top_list rel df price_df top_n) :=
  ranksSequential_assign _

/-- The amounts of a `top_list` are the amounts of the sorted, truncated
DataFrame. -/
theorem top_list_amounts (rel : Row → Row → Prop) [DecidableRel rel] (df : Table)
    (price_df : List PriceRow) (top_n : Nat) :
    amounts (top_list rel df price_df top_n)
      = ((df.insertionSort rel).map Row.net_buy_amount).take top_n := by
  unfold top_list amounts
  rw [assign_ranks_map_amount, List.map_map]
  have : RankedEntry.net_buy_amount ∘ mk_entry price_df = Row.net_buy_amount := rfl
  rw [this, List.map_take]

/-- A descending `top_list` has non-increasing amounts. -/
theorem top_list_desc_sorted (df : Table) (price_df : List PriceRow) (top_n : Nat) :
    amountsNonincreasing (top_list amountDesc df price_df top_n) := by
  unfold amountsNonincreasing
  rw [top_list_amounts]
  apply List.Pairwise.take
  rw [List.pairwise_map]
  exact List.sorted_insertionSort amountDesc df

/-- An ascending `top_list` has non-decreasing amounts. -/
theorem top_list_asc_sorted (df : Table) (price_df : List PriceRow) (top_n : Nat) :
    amountsNondecreasing (top_list amountAsc df price_df top_n) := by
  unfold amountsNondecreasing
  rw [top_list_amounts]
  apply List.Pairwise.take
  rw [List.pairwise_map]
  exact List.sorted_insertionSort amountAsc df

/-- Any successful `get_top_aux` result was assembled by `top_list` on one
found table and that day's price table. -/
theorem get_top_aux_result_shape (env : Env) (investor_type : String) (top_n : Nat) :
    ∀ (fuel : Nat) (d : Int) (cache : List CacheRecord) (r : TopResult),
      (get_top_aux env investor_type top_n fuel d cache).result = some r →
      ∃ df price_df d0, r = { buy := top_list amountDesc df price_df top_n,
                              sell := top_list amountAsc df price_df top_n,
                              date := d0 } := by
  intro fuel
  induction fuel with
  | zero => intro d cache r h; simp [get_top_aux] at h
  | succ fuel ih =>
    intro d cache r h
    by_cases he : (get_investor_data env cache d investor_type).table.isEmpty
    · simp only [get_top_aux, he, if_true] at h
      exact ih (d - 1) _ r h
    · simp only [get_top_aux, he, Bool.false_eq_true, if_false,
        Option.some.injEq] at h
      exact ⟨(get_investor_data env cache d investor_type).table,
        get_market_price env d, d, h.symm⟩

/-- C4: every ranked list produced by the Ranking Engine (single-day and
range-aggregated) or by the Trend Analyzer's `build_result_list` has ranks
exactly `1..len` in list order, non-increasing amounts in buy lists and
trend lists, and non-decreasing amounts in sell lists. -/
theorem ranked_lists_invariant :
    (∀ (env : Env) (cache : List CacheRecord) (date : Int) (investor_type : String)
       (top_n : Nat) (allow_fallback : Bool) (r : TopResult),
       (get_top_net_buy_sell env cache date investor_type top_n allow_fallback).result
           = some r →
         (ranksSequential r.buy ∧ amountsNonincreasing r.buy) ∧
         (ranksSequential r.sell ∧ amountsNondecreasing r.sell)) ∧
    (∀ (env : Env) (start_date end_date : Int) (investor_type : String)
       (top_n : Nat) (r : TopRangeResult),
       get_aggregated_top_stocks env start_date end_date investor_type top_n = some r →
         (ranksSequential r.buy ∧ amountsNonincreasing r.buy) ∧
         (ranksSequential r.sell ∧ amountsNondecreasing r.sell)) ∧
    (∀ (today_df : Table) (price_df start_price_df : List PriceRow) (top_n : Nat)
       (tickers : List String),
       ranksSequential (build_result_list today_df price_df start_price_df top_n tickers) ∧
       amountsNonincreasing
         (build_result_list today_df price_df start_price_df top_n tickers)) := by
  refine ⟨?_, ?_, ?_⟩
  · intro env cache date investor_type top_n allow_fallback r h
    rcases get_top_aux_result_shape env investor_type top_n _ date cache r h
      with ⟨df, price_df, d0, rfl⟩
    exact ⟨⟨top_list_ranks _ df price_df top_n, top_list_desc_sorted df price_df top_n⟩,
      ⟨top_list_ranks _ df price_df top_n, top_list_asc_sorted df price_df top_n⟩⟩
  · intro env start_date end_date investor_type top_n r h
    by_cases he : (get_aggregated_investor_data env start_date end_date
        investor_type).isEmpty
    · simp [get_aggregated_top_stocks, he] at h
    · simp only [get_aggregated_top_stocks, he, Bool.false_eq_true, if_false,
        Option.some.injEq] at h
      subst h
      exact ⟨⟨top_list_ranks _ _ _ top_n, top_list_desc_sorted _ _ top_n⟩,
        ⟨top_list_ranks _ _ _ top_n, top_list_asc_sorted _ _ top_n⟩⟩
  · intro today_df price_df start_price_df top_n tickers
    constructor
    · exact ranksSequential_assign_take _ top_n
    · unfold amountsNonincreasing build_result_list amounts
      rw [List.map_take, assign_ranks_map_amount]
      apply List.Pairwise.take
      rw [List.pairwise_map]
      exact List.sorted_insertionSort entryDesc _

theorem ranked_lists_invariant_witness :
    (ranksSequential [⟨"A", "N", 5, 0, 0, 1⟩] ∧
     amountsNonincreasing [⟨"A", "N", 5, 0, 0, 1⟩]) ∧
    (ranksSequential [⟨"A", "N", 5, 0, 0, 1⟩] ∧
     amountsNondecreasing [⟨"A", "N", 5, 0, 0, 1⟩]) :=
  ranked_lists_invariant.1 envRemoteOne [] 0 "외국인" 100 true
    ⟨[⟨"A", "N", 5, 0, 0, 1⟩], [⟨"A", "N", 5, 0, 0, 1⟩], 0⟩ (by decide)

/-! ### Trend entries: percent-change semantics -/

/-- Rank assignment only renumbers: every output entry keeps the ticker and
percent change of an input entry. -/
theorem mem_assign_ranks :
    ∀ (l : List RankedEntry) (i : Nat) (e : RankedEntry), e ∈ assign_ranks i l →
      ∃ e' ∈ l, e.ticker = e'.ticker ∧ e.percent_change = e'.percent_change := by
  intro l
  induction l with
  | nil => intro i e h; simp [assign_ranks] at h
  | cons a t ih =>
    intro i e h
    simp only [assign_ranks, List.mem_cons] at h
    rcases h with rfl | h
    · exact ⟨a, List.mem_cons_self a t, rfl, rfl⟩
    · rcases ih (i + 1) e h with ⟨e', he', h1, h2⟩
      exact ⟨e', List.mem_cons_of_mem a he', h1, h2⟩

/-- A successful `trend_entry` carries its ticker and the specified percent
change. -/
theorem trend_entry_spec (today_df : Table) (price_df start_price_df : List PriceRow)
    (t : String) (e : RankedEntry)
    (h : trend_entry today_df price_df start_price_df t = some e) :
    e.ticker = t ∧
    e.percent_change = spec_percent_change price_df start_price_df t := by
  unfold trend_entry at h
  cases hrow : today_df.find? (fun r => r.ticker == t) with
  | none => rw [hrow] at h; cases h
  | some row =>
    rw [hrow] at h
    simp only [Option.some.injEq] at h
    subst h
    refine ⟨rfl, ?_⟩
    show (if decide (0 < start_price_of start_price_df t)
          && decide (0 < (get_price_info price_df t).1) then
            round2 (period_change (get_price_info price_df t).1
              (start_price_of start_price_df t))
          else (get_price_info price_df t).2)
        = spec_percent_change price_df start_price_df t
    unfold spec_percent_change single_day_change get_price_info start_price_of
    cases hfp : price_df.find? (fun p => p.ticker == t) with
    | none => simp [hfp]
    | some p =>
      cases hfs : start_price_df.find? (fun p => p.ticker == t) with
      | none => simp [hfs]
      | some q =>
        simp only
        by_cases hpq : 0 < p.close_price ∧ 0 < q.close_price
        · have hcond : (decide (0 < q.close_price) && decide (0 < p.close_price)) = true := by
            simp [hpq.1, hpq.2]
          rw [hcond, if_pos hpq]
          simp
        · have hcond : (decide (0 < q.close_price) && decide (0 < p.close_price)) = false := by
            rcases not_and_or.mp hpq with hnp | hnq
            · simp [hnp]
            · simp [hnq]
          rw [hcond, if_neg hpq]
          simp

/-- C9: every entry of a trend result list carries as `percent_change` the
whole-period change `(end - start) / start * 100` rounded to 2 decimals when
both a valid end price (table nearest the most recent surviving date) and a
valid start price (table nearest the oldest surviving date) exist, and the
single-day change from the most recent day's table (or `0.0`) otherwise. -/
theorem trend_percent_change_follows_spec
    (today_df : Table) (price_df start_price_df : List PriceRow) (top_n : Nat)
    (tickers : List String) (e : RankedEntry)
    (he : e ∈ build_result_list today_df price_df start_price_df top_n tickers) :
    e.percent_change = spec_percent_change price_df start_price_df e.ticker := by
  unfold build_result_list at he
  have he1 : e ∈ assign_ranks 1
      ((tickers.filterMap (trend_entry today_df price_df start_price_df)).insertionSort
        entryDesc) :=
    List.Sublist.mem he (List.take_sublist top_n _)
  rcases mem_assign_ranks _ 1 e he1 with ⟨e', he', ht, hp⟩
  have he'' : e' ∈ tickers.filterMap (trend_entry today_df price_df start_price_df) :=
    (List.perm_insertionSort entryDesc _).mem_iff.mp he'
  rcases List.mem_filterMap.mp he'' with ⟨t, _, hsome⟩
  rcases trend_entry_spec today_df price_df start_price_df t e' hsome with ⟨ht', hp'⟩
  rw [hp, ht, ht', hp']

theorem trend_percent_change_follows_spec_witness :
    (⟨"A", "N", 5, 0, 0, 1⟩ : RankedEntry).percent_change
      = spec_percent_change [] []
          (⟨"A", "N", 5, 0, 0, 1⟩ : RankedEntry).ticker :=
  trend_percent_change_follows_spec
    [⟨"A", "N", 5⟩] [] [] 20 ["A"] _ (by decide)

/-! ### Trend analyzer: days analyzed -/

/-- The candidate calendar dates are strictly decreasing. -/
theorem candidate_dates_pairwise (now : Int) (days : Nat) :
    (candidate_dates now days).Pairwise (fun a b => b < a) := by
  unfold candidate_dates
  rw [List.pairwise_map]
  refine (List.pairwise_lt_range _).imp ?_
  intro a b hab
  omega

/-- The surviving datasets are strictly decreasing by date: the most recent
surviving days are exactly an initial segment. -/
theorem surviving_pairwise (env : Env) (now : Int) (days : Nat) (investor_type : String) :
    (surviving env now days investor_type).Pairwise (fun a b => b.1 < a.1) := by
  unfold surviving
  refine List.Pairwise.filterMap _ ?_ (candidate_dates_pairwise now days)
  intro a b hab x hx y hy
  have hxa : x.1 = a := by
    by_cases hdf : (get_daily_raw_data env a investor_type).isEmpty
    · simp [hdf] at hx
    · simp only [hdf, Bool.false_eq_true, if_false, Option.mem_def,
        Option.some.injEq] at hx
      rw [← hx]
  have hyb : y.1 = b := by
    by_cases hdf : (get_daily_raw_data env b investor_type).isEmpty
    · simp [hdf] at hy
    · simp only [hdf, Bool.false_eq_true, if_false, Option.mem_def,
        Option.some.injEq] at hy
      rw [← hy]
  rw [hxa, hyb]
  exact hab

/-- The truncated dataset list is never longer than the request. -/
theorem kept_length_le_days (env : Env) (now : Int) (days : Nat) (investor_type : String) :
    (kept_datasets env now days investor_type).length ≤ days := by
  unfold kept_datasets
  split
  · rw [List.length_take]
    exact inf_le_left
  · omega

/-- Truncation never grows the surviving list. -/
theorem kept_length_le_surviving (env : Env) (now : Int) (days : Nat)
    (investor_type : String) :
    (kept_datasets env now days investor_type).length
      ≤ (surviving env now days investor_type).length := by
  unfold kept_datasets
  split
  · rw [List.length_take]
    exact inf_le_right
  · exact le_refl _

/-- C6: whenever `analyze_special_trends` returns a non-null result,
`days_analyzed` equals the number of surviving daily tables retained, is at
most the requested `days`, is at most the number of non-empty tables fetched
from the `2*days + 5` candidate calendar dates, and when more than `days`
tables survive exactly the most recent `days` of them (an initial segment of
the date-descending surviving list) are kept. -/
theorem days_analyzed_bounds (env : Env) (now : Int) (days : Nat)
    (investor_type : String) (top_n : Nat) (r : TrendResult)
    (h : analyze_special_trends env now days investor_type top_n = some r) :
    r.days_analyzed = (kept_datasets env now days investor_type).length ∧
    r.days_analyzed ≤ days ∧
    r.days_analyzed ≤ (surviving env now days investor_type).length ∧
    (days < (surviving env now days investor_type).length →
      kept_datasets env now days investor_type
        = (surviving env now days investor_type).take days) ∧
    (surviving env now days investor_type).Pairwise (fun a b => b.1 < a.1) := by
  have hda : r.days_analyzed = (kept_datasets env now days investor_type).length := by
    unfold analyze_special_trends at h
    by_cases hemp : (surviving env now days investor_type).isEmpty
    · simp [hemp] at h
    · simp only [hemp, Bool.false_eq_true, if_false] at h
      cases hk : kept_datasets env now days investor_type with
      | nil => rw [hk] at h; cases h
      | cons p rest =>
        rw [hk] at h
        simp only [Option.some.injEq] at h
        subst h
        simp
  refine ⟨hda, ?_, ?_, ?_, surviving_pairwise env now days investor_type⟩
  · rw [hda]
    exact kept_length_le_days env now days investor_type
  · rw [hda]
    exact kept_length_le_surviving env now days investor_type
  · intro hlt
    unfold kept_datasets
    rw [if_pos hlt]

theorem days_analyzed_bounds_witness :
    (1 : Nat) = (kept_datasets envRemoteOne 0 1 "외국인").length ∧
    (1 : Nat) ≤ 1 ∧
    (1 : Nat) ≤ (surviving envRemoteOne 0 1 "외국인").length ∧
    (1 < (surviving envRemoteOne 0 1 "외국인").length →
      kept_datasets envRemoteOne 0 1 "외국인"
        = (surviving envRemoteOne 0 1 "외국인").take 1) ∧
    (surviving envRemoteOne 0 1 "외국인").Pairwise (fun a b => b.1 < a.1) :=
  days_analyzed_bounds envRemoteOne 0 1 "외국인" 20
    ⟨[⟨"A", "N", 5, 0, 0, 1⟩], [⟨"A", "N", 5, 0, 0, 1⟩], 1, 0, 0⟩ (by decide)

end SmartMoney
